import Mathlib

/-!
Verification development for the Emmet-style abbreviation expander
(`src/emmet.ts`).  The TypeScript source is shallowly embedded: the
parser's mutable cursor becomes explicit `(input, pos)` state threading,
exceptions become `Except`, and the parser's loops — which can genuinely
fail to make progress — are indexed by a fuel parameter, with `none`
meaning the computation has not finished within the given fuel.
-/

namespace Emmet

/-! ### Character classes (JS regexes `/\s/` and `[a-zA-Z0-9\-\_\:$]`) -/

/-- ASCII whitespace as matched by the JS `\s` class on ASCII input. -/
def isWsChar (c : Char) : Bool :=
  c = ' ' || c = '\t' || c = '\n' || c = '\r' || c = '\x0b' || c = '\x0c'

/-- `IDENTIFIER_CHARS = /[a-zA-Z0-9\-\_\:$]/`. -/
def isIdentChar (c : Char) : Bool :=
  c.isAlpha || c.isDigit || c = '-' || c = '_' || c = ':' || c = '$'

/-! ### Node model (`EmmetNode`) -/

/-- An attribute value: `true` (bare flag) or a string value. -/
inductive AttrValue where
  | flag : AttrValue
  | str : String → AttrValue
deriving DecidableEq, Repr

/-- The node record from `emmet.ts`.  `id`/`text` are `Option` for the
optional fields; `attributes` is the insertion-ordered key/value list of
the JS object. -/
inductive EmmetNode where
  | mk (tag : String) (id : Option String) (classes : List String)
       (attributes : List (String × AttrValue)) (text : Option String)
       (children : List EmmetNode)
deriving Repr

def EmmetNode.tag : EmmetNode → String
  | .mk t _ _ _ _ _ => t

def EmmetNode.id : EmmetNode → Option String
  | .mk _ i _ _ _ _ => i

def EmmetNode.classes : EmmetNode → List String
  | .mk _ _ c _ _ _ => c

def EmmetNode.attributes : EmmetNode → List (String × AttrValue)
  | .mk _ _ _ a _ _ => a

def EmmetNode.text : EmmetNode → Option String
  | .mk _ _ _ _ t _ => t

def EmmetNode.children : EmmetNode → List EmmetNode
  | .mk _ _ _ _ _ c => c

/-- `{ ...parent, children: cs }` — replace the children, keep the rest. -/
def EmmetNode.withChildren : EmmetNode → List EmmetNode → EmmetNode
  | .mk t i c a x _, cs => .mk t i c a x cs

/-- Replace the attribute list, keep the rest (models mutation of
`node.attributes` inside `parseAttributes`). -/
def EmmetNode.withAttributes : EmmetNode → List (String × AttrValue) → EmmetNode
  | .mk t i c _ x ch, a => .mk t i c a x ch

/-- JS string truthiness for an optional string field (`node.id`,
`node.text`): present and non-empty. -/
def strTruthy : Option String → Bool
  | none => false
  | some s => !s.isEmpty

/-- JS object assignment `obj[k] = v` on an insertion-ordered record: an
existing key keeps its position and gets the new value, a new key is
appended. -/
def setAttr : List (String × AttrValue) → String → AttrValue → List (String × AttrValue)
  | [], k, v => [(k, v)]
  | (k', v') :: rest, k, v =>
    if k' = k then (k, v) :: rest else (k', v') :: setAttr rest k v

/-! ### Decimal representation (JS `Number.prototype.toString` for a
nonnegative integer) — fueled so it reduces definitionally. -/

/-- Little-endian decimal digits of `n`; `fuel ≥ n` is always enough. -/
def natDigitsAux : Nat → Nat → List Nat
  | 0, _ => []
  | fuel + 1, n => if n = 0 then [] else n % 10 :: natDigitsAux fuel (n / 10)

def natDigitsLE (n : Nat) : List Nat := natDigitsAux n n

def digitChar (d : Nat) : Char := Char.ofNat (48 + d)

/-- `(n).toString()` for a natural number. -/
def decimalRepr (n : Nat) : List Char :=
  if n = 0 then ['0'] else ((natDigitsLE n).reverse).map digitChar

/-- `value.padStart(w, '0')`. -/
def padStartZeros (s : List Char) (w : Nat) : List Char :=
  List.replicate (w - s.length) '0' ++ s

/-- Decimal value denoted by a digit string (big-endian). -/
def decodeDecimal (s : List Char) : Nat :=
  s.foldl (fun a c => 10 * a + (c.toNat - 48)) 0

/-! ### Numbering substitution (`applyNumbering`) -/

/-- `template.replace(/\$+/g, m => (index+1).toString().padStart(m.length,'0'))`
— processed left to right, `run` counts the pending `$`-run. -/
def applyNumberingAux (index : Nat) (run : Nat) : List Char → List Char
  | [] => if run = 0 then [] else padStartZeros (decimalRepr (index + 1)) run
  | c :: rest =>
    if c = '$' then applyNumberingAux index (run + 1) rest
    else if run = 0 then c :: applyNumberingAux index 0 rest
    else padStartZeros (decimalRepr (index + 1)) run ++ c :: applyNumberingAux index 0 rest

def applyNumberingL (index : Nat) (l : List Char) : List Char :=
  applyNumberingAux index 0 l

def applyNumbering (template : String) (index : Nat) : String :=
  ⟨applyNumberingL index template.data⟩

/-! ### Cloning (`cloneNode`, `cloneNodes`, `repeatNodes`) -/

/-- `node.id ? (useNumbering ? applyNumbering(id, i) : id) : undefined` —
the JS truthiness check drops an empty string. -/
def cloneOptStr (o : Option String) (index : Nat) (useNumbering : Bool) : Option String :=
  if strTruthy o then
    match o with
    | some s => some (if useNumbering then applyNumbering s index else s)
    | none => none
  else none

mutual
def cloneNode : EmmetNode → Nat → Bool → EmmetNode
  | .mk tag id classes attrs text children, index, useNumbering =>
    .mk tag
      (cloneOptStr id index useNumbering)
      (classes.map fun cls => if useNumbering then applyNumbering cls index else cls)
      (attrs.map fun kv =>
        match kv with
        | (k, .flag) => (k, .flag)
        | (k, .str s) => (k, .str (if useNumbering then applyNumbering s index else s)))
      (cloneOptStr text index useNumbering)
      (cloneList children index useNumbering)

def cloneList : List EmmetNode → Nat → Bool → List EmmetNode
  | [], _, _ => []
  | n :: ns, index, useNumbering =>
    cloneNode n index useNumbering :: cloneList ns index useNumbering
end

/-- `cloneNodes(nodes)`: one clone of each node, no numbering. -/
def cloneNodes (nodes : List EmmetNode) : List EmmetNode :=
  cloneList nodes 0 false

/-- `repeatNodes(nodes, count)`: the two nested `for` loops pushing
`cloneNode(node, i, true)` in order. -/
def repeatNodes (nodes : List EmmetNode) (count : Nat) : List EmmetNode :=
  (List.range count).foldl
    (fun result i => nodes.foldl (fun r node => r ++ [cloneNode node i true]) result)
    []

/-! ### Escaping (`escapeHtml`, `escapeAttribute`) -/

/-- One global `String.prototype.replace` of a single character by a
replacement string. -/
def replaceAll (target : Char) (repl : List Char) : List Char → List Char
  | [] => []
  | c :: rest => (if c = target then repl else [c]) ++ replaceAll target repl rest

/-- `escapeHtml`: replace `&` then `<` then `>`, in that order. -/
def escapeHtmlL (l : List Char) : List Char :=
  replaceAll '>' "&gt;".data (replaceAll '<' "&lt;".data (replaceAll '&' "&amp;".data l))

/-- `escapeAttribute`: `escapeHtml` then replace `"`. -/
def escapeAttributeL (l : List Char) : List Char :=
  replaceAll '\"' "&quot;".data (escapeHtmlL l)

/-! ### Renderer (`buildAttributeList`, `renderNode`, `renderNodes`) -/

/-- `Array.prototype.join(' ')` on a list of character lists. -/
def joinSpace : List (List Char) → List Char
  | [] => []
  | [x] => x
  | x :: xs => x ++ ' ' :: joinSpace xs

/-- `Array.prototype.join('\n')`. -/
def joinNl : List (List Char) → List Char
  | [] => []
  | [x] => x
  | x :: xs => x ++ '\n' :: joinNl xs

/-- `text.split('\n')`. -/
def splitOnNl : List Char → List (List Char)
  | [] => [[]]
  | c :: rest =>
    match splitOnNl rest with
    | [] => [[]]
    | g :: gs => if c = '\n' then [] :: g :: gs else (c :: g) :: gs

/-- `'  '.repeat(level)`. -/
def indentChars (level : Nat) : List Char :=
  List.replicate (2 * level) ' '

/-- `indentMultiline(text, level)`. -/
def indentMultiline (text : List Char) (level : Nat) : List Char :=
  joinNl ((splitOnNl text).map fun line => indentChars level ++ line)

/-- An ECMAScript array-index property key: the canonical decimal string
of an integer below `2^32 - 1` — all digits, no leading zero except for
`"0"` itself.  `Object.entries` enumerates such keys before all other
string keys. -/
def isArrayIndex (s : String) : Bool :=
  match s.data with
  | [] => false
  | c :: rest =>
    (c :: rest).all Char.isDigit && (c != '0' || rest.isEmpty) &&
      decide (decodeDecimal (c :: rest) < 4294967295)

/-- Ascending insertion by numeric key value (array-index keys are
canonical, so distinct keys have distinct values). -/
def insertByIndex (kv : String × AttrValue) :
    List (String × AttrValue) → List (String × AttrValue)
  | [] => [kv]
  | kv' :: rest =>
    if decodeDecimal kv.1.data < decodeDecimal kv'.1.data then kv :: kv' :: rest
    else kv' :: insertByIndex kv rest

def sortByIndex : List (String × AttrValue) → List (String × AttrValue)
  | [] => []
  | kv :: rest => insertByIndex kv (sortByIndex rest)

/-- `Object.entries` enumeration order (OrdinaryOwnPropertyKeys): array-
index keys in ascending numeric order first, then the remaining string
keys in insertion order. -/
def entriesOrder (attrs : List (String × AttrValue)) : List (String × AttrValue) :=
  sortByIndex (attrs.filter fun kv => isArrayIndex kv.1) ++
    attrs.filter fun kv => !isArrayIndex kv.1

/-- `buildAttributeList(node)`: `id="…"` first (if truthy), then
`class="…"` (if any classes), then each attribute of
`Object.entries(node.attributes)` — array-index keys first in numeric
order, then the rest in insertion order. -/
def buildAttributeList (node : Emmet.EmmetNode) : List Char :=
  let idPart : List (List Char) :=
    if strTruthy node.id then
      match node.id with
      | some s => ["id=\"".data ++ escapeAttributeL s.data ++ ['\"']]
      | none => []
    else []
  let classPart : List (List Char) :=
    if node.classes.length > 0 then
      ["class=\"".data ++ escapeAttributeL (joinSpace (node.classes.map String.data)) ++ ['\"']]
    else []
  let attrParts : List (List Char) :=
    (entriesOrder node.attributes).map fun kv =>
      match kv with
      | (k, .flag) => k.data
      | (k, .str v) => k.data ++ "=\"".data ++ escapeAttributeL v.data ++ ['\"']
  joinSpace (idPart ++ classPart ++ attrParts)

/-- `node.text` content when truthy, else `[]`. -/
def textData (node : Emmet.EmmetNode) : List Char :=
  match node.text with
  | some s => s.data
  | none => []

mutual
def renderNode : Emmet.EmmetNode → Nat → List Char
  | .mk tag id classes attrsRec text children, level =>
    let node : EmmetNode := .mk tag id classes attrsRec text []
    let indentation := indentChars level
    let attrs := buildAttributeList node
    let openTag := '<' :: tag.data ++ (if attrs.isEmpty then [] else ' ' :: attrs) ++ ['>']
    let closeTag := '<' :: '/' :: tag.data ++ ['>']
    match children with
    | [] =>
      if strTruthy text && (textData node).contains '\n' then
        indentation ++ openTag ++ '\n' ::
          indentMultiline (escapeHtmlL (textData node)) (level + 1) ++ '\n' ::
          indentation ++ closeTag
      else if strTruthy text then
        indentation ++ openTag ++ escapeHtmlL (textData node) ++ closeTag
      else
        indentation ++ openTag ++ closeTag
    | c :: cs =>
      let childContent := joinNl (renderList (c :: cs) (level + 1))
      let textContent :=
        if strTruthy text then
          '\n' :: indentMultiline (escapeHtmlL (textData node)) (level + 1)
        else []
      let combinedContent :=
        if textContent.isEmpty then childContent else textContent ++ '\n' :: childContent
      indentation ++ openTag ++ '\n' :: combinedContent ++ '\n' :: indentation ++ closeTag

def renderList : List Emmet.EmmetNode → Nat → List (List Char)
  | [], _ => []
  | n :: ns, level => renderNode n level :: renderList ns level
end

/-- `renderNodes(nodes)` at level 0 (the only call site). -/
def renderNodes (nodes : List Emmet.EmmetNode) : String :=
  ⟨joinNl (renderList nodes 0)⟩

/-! ### Parser cursor helpers -/

/-- A parse error: message plus the cursor position at throw time
(the source embeds the position into the `Error` message). -/
structure PErr where
  msg : String
  pos : Nat
deriving DecidableEq, Repr

/-- `skipWhitespace()`: advance past whitespace. -/
def skipWs (inp : List Char) (pos : Nat) : Nat :=
  pos + ((inp.drop pos).takeWhile isWsChar).length

/-- `consumeIdentifier()`: longest identifier-character run at `pos`
(empty if the first character is not an identifier character). -/
def consumeIdentifier (inp : List Char) (pos : Nat) : String × Nat :=
  let cs := (inp.drop pos).takeWhile isIdentChar
  (⟨cs⟩, pos + cs.length)

/-- `consumeIdentifierOrThrow(message)`. -/
def consumeIdentifierOrThrow (inp : List Char) (pos : Nat) (msg : String) :
    Except PErr (String × Nat) :=
  let (value, p) := consumeIdentifier inp pos
  if value.isEmpty then .error ⟨msg, pos⟩ else .ok (value, p)

/-- Body of `consumeText()`: characters up to an unescaped `}`, with
`\x` unescaped to `x`; returns the text and the number of characters
consumed (including the closing `}`), or `none` when unterminated. -/
def consumeTextAux : List Char → Option (List Char × Nat)
  | [] => none
  | c :: rest =>
    if c = '}' then some ([], 1)
    else if c = '\\' then
      match rest with
      | [] => none
      | next :: rest' =>
        match consumeTextAux rest' with
        | none => none
        | some (txt, k) => some (next :: txt, k + 2)
    else
      match consumeTextAux rest with
      | none => none
      | some (txt, k) => some (c :: txt, k + 1)

/-- `consumeText()`; on an unterminated literal the source throws with
the cursor at the end of input. -/
def consumeText (inp : List Char) (pos : Nat) : Except PErr (String × Nat) :=
  match consumeTextAux (inp.drop pos) with
  | none => .error ⟨"Unclosed text segment", inp.length⟩
  | some (txt, k) => .ok (⟨txt⟩, pos + k)

/-- Body of the quoted-value loop of `consumeAttributeValue()`:
characters up to an unescaped closing quote `q`. -/
def quotedAux (q : Char) : List Char → Option (List Char × Nat)
  | [] => none
  | c :: rest =>
    if c = q then some ([], 1)
    else if c = '\\' then
      match rest with
      | [] => none
      | next :: rest' =>
        match quotedAux q rest' with
        | none => none
        | some (v, k) => some (next :: v, k + 2)
    else
      match quotedAux q rest with
      | none => none
      | some (v, k) => some (c :: v, k + 1)

/-- `consumeAttributeValue()`: quoted (double or single) or unquoted
(up to space, comma, or `]`; empty is an error). -/
def consumeAttributeValue (inp : List Char) (pos : Nat) : Except PErr (String × Nat) :=
  let quote := inp[pos]?
  if quote = some '\"' || quote = some '\'' then
    match quote with
    | some q =>
      match quotedAux q (inp.drop (pos + 1)) with
      | none => .error ⟨"Unclosed quoted attribute value", inp.length⟩
      | some (v, k) => .ok (⟨v⟩, pos + 1 + k)
    | none => .error ⟨"Unclosed quoted attribute value", inp.length⟩
  else
    let cs := (inp.drop pos).takeWhile fun c => !(c = ' ' || c = ',' || c = ']')
    if cs.isEmpty then .error ⟨"Expected attribute value", pos⟩
    else .ok (⟨cs⟩, pos + cs.length)

/-- `consumeNumber()`: one or more decimal digits, read base 10. -/
def consumeNumber (inp : List Char) (pos : Nat) : Except PErr (Nat × Nat) :=
  let ds := (inp.drop pos).takeWhile Char.isDigit
  if ds.isEmpty then .error ⟨"Expected number", pos⟩
  else .ok (decodeDecimal ds, pos + ds.length)

/-- `applyMultiplier(nodes)`: if `*` follows (after whitespace), read the
count and repeat; a zero count is an error. -/
def applyMultiplier (inp : List Char) (pos : Nat) (nodes : List EmmetNode) :
    Except PErr (List EmmetNode × Nat) :=
  let p1 := skipWs inp pos
  if inp[p1]? = some '*' then
    match consumeNumber inp (p1 + 1) with
    | .error e => .error e
    | .ok (count, p2) =>
      if count ≤ 0 then .error ⟨"Multiplier must be greater than zero", p2⟩
      else .ok (repeatNodes nodes count, p2)
  else .ok (nodes, p1)

/-- `Set.add` on the terminator set (only `')'` is ever added). -/
def addTerm (ts : List Char) (c : Char) : List Char :=
  if ts.contains c then ts else c :: ts

/-- Field updates used by `parseElement`. -/
def EmmetNode.withId : EmmetNode → Option String → EmmetNode
  | .mk t _ c a x ch, i => .mk t i c a x ch

def EmmetNode.withClasses : EmmetNode → List String → EmmetNode
  | .mk t i _ a x ch, c => .mk t i c a x ch

def EmmetNode.withText : EmmetNode → Option String → EmmetNode
  | .mk t i c a _ ch, x => .mk t i c a x ch

/-! ### The recursive-descent parser, fuel-indexed.

`none` means the computation did not finish within the given fuel; a
result that is `none` for **every** fuel is a genuine infinite loop of
the source program.  Every recursive call passes the fuel predecessor,
so the mutual block is structurally recursive on fuel. -/

/-- Parser results: `none` = out of fuel. -/
abbrev PRes (α : Type) := Option (Except PErr (α × Nat))

mutual
/-- The `while (true)` loop of `parseExpression(terminators)`, with the
accumulated sibling nodes made explicit. -/
def exprLoop : Nat → List Char → List Char → List EmmetNode → Nat → PRes (List EmmetNode)
  | 0, _, _, _, _ => none
  | fuel + 1, inp, ts, nodes, pos =>
    let p1 := skipWs inp pos
    match inp[p1]? with
    | none => some (.ok (nodes, p1))
    | some current =>
      if ts.contains current then some (.ok (nodes, p1))
      else
        match parseChildTerm fuel inp ts p1 with
        | none => none
        | some (.error e) => some (.error e)
        | some (.ok (chunk, p2)) => exprAfter fuel inp ts (nodes ++ chunk) p2
  termination_by structural fuel inp ts nodes pos => fuel

/-- Rest of a `parseExpression` loop iteration, after the chunk has been
pushed: handle `+`, terminators, end of input, the "unexpected character"
throw, and the fall-through continue when the character is `')'` but not
a terminator. -/
def exprAfter : Nat → List Char → List Char → List EmmetNode → Nat → PRes (List EmmetNode)
  | 0, _, _, _, _ => none
  | fuel + 1, inp, ts, nodes2, p2 =>
    let p3 := skipWs inp p2
    match inp[p3]? with
    | none => some (.ok (nodes2, p3))
    | some afterChunk =>
      if afterChunk = '+' then exprLoop fuel inp ts nodes2 (p3 + 1)
      else if ts.contains afterChunk then some (.ok (nodes2, p3))
      else if afterChunk ≠ ')' then some (.error ⟨"Unexpected character", p3⟩)
      else exprLoop fuel inp ts nodes2 p3
  termination_by structural fuel inp ts nodes2 p2 => fuel

/-- `parseChildTerm(terminators)`. -/
def parseChildTerm : Nat → List Char → List Char → Nat → PRes (List EmmetNode)
  | 0, _, _, _ => none
  | fuel + 1, inp, ts, pos =>
    match parsePrimary fuel inp ts pos with
    | none => none
    | some (.error e) => some (.error e)
    | some (.ok (primaries, p1)) =>
      match applyMultiplier inp p1 primaries with
      | .error e => some (.error e)
      | .ok (parents, p2) => childLoop fuel inp ts parents p2
  termination_by structural fuel inp ts pos => fuel

/-- The `while (true)` loop of `parseChildTerm` handling `>` nesting. -/
def childLoop : Nat → List Char → List Char → List EmmetNode → Nat → PRes (List EmmetNode)
  | 0, _, _, _, _ => none
  | fuel + 1, inp, ts, parents, pos =>
    let p1 := skipWs inp pos
    if inp[p1]? = some '>' then
      match exprLoop fuel inp (addTerm ts ')') [] (p1 + 1) with
      | none => none
      | some (.error e) => some (.error e)
      | some (.ok (children, p2)) =>
        childLoop fuel inp ts
          (parents.map fun parent => parent.withChildren (cloneNodes children)) p2
    else some (.ok (parents, p1))
  termination_by structural fuel inp ts parents pos => fuel

/-- `parsePrimary(terminators)`. -/
def parsePrimary : Nat → List Char → List Char → Nat → PRes (List EmmetNode)
  | 0, _, _, _ => none
  | fuel + 1, inp, ts, pos =>
    let p1 := skipWs inp pos
    match inp[p1]? with
    | some '(' =>
      match exprLoop fuel inp (addTerm ts ')') [] (p1 + 1) with
      | none => none
      | some (.error e) => some (.error e)
      | some (.ok (group, p2)) =>
        if inp[p2]? = some ')' then some (.ok (group, p2 + 1))
        else some (.error ⟨"Unclosed group", p2⟩)
    | none => some (.error ⟨"Unexpected end of input", p1⟩)
    | some _ =>
      match parseElement fuel inp p1 with
      | none => none
      | some (.error e) => some (.error e)
      | some (.ok (node, p2)) => some (.ok ([node], p2))
  termination_by structural fuel inp ts pos => fuel

/-- `parseElement()` up to its modifier loop. -/
def parseElement : Nat → List Char → Nat → PRes EmmetNode
  | 0, _, _ => none
  | fuel + 1, inp, pos =>
    let (tag, p1) := consumeIdentifier inp pos
    elementLoop fuel inp p1 (.mk (if tag.isEmpty then "div" else tag) none [] [] none [])

/-- The modifier loop of `parseElement()`. -/
def elementLoop : Nat → List Char → Nat → EmmetNode → PRes EmmetNode
  | 0, _, _, _ => none
  | fuel + 1, inp, pos, node =>
    match inp[pos]? with
    | none => some (.ok (node, pos))
    | some ch =>
      if ch = '#' then
        if strTruthy node.id then some (.error ⟨"Duplicate id segment", pos + 1⟩)
        else
          match consumeIdentifierOrThrow inp (pos + 1) "Expected id after #" with
          | .error e => some (.error e)
          | .ok (idStr, p2) => elementLoop fuel inp p2 (node.withId (some idStr))
      else if ch = '.' then
        match consumeIdentifierOrThrow inp (pos + 1) "Expected class name after ." with
        | .error e => some (.error e)
        | .ok (cls, p2) => elementLoop fuel inp p2 (node.withClasses (node.classes ++ [cls]))
      else if ch = '[' then
        match parseAttributes fuel inp (pos + 1) node with
        | none => none
        | some (.error e) => some (.error e)
        | some (.ok (node2, p2)) => elementLoop fuel inp p2 node2
      else if ch = '{' then
        match consumeText inp (pos + 1) with
        | .error e => some (.error e)
        | .ok (txt, p2) => elementLoop fuel inp p2 (node.withText (some txt))
      else if ch = '>' || ch = '+' || ch = '*' || ch = ')' then some (.ok (node, pos))
      else some (.error ⟨"Unexpected character within element", pos⟩)
  termination_by structural fuel inp pos node => fuel

/-- `parseAttributes(node)`: one iteration of its `while (!isEnd)` loop. -/
def parseAttributes : Nat → List Char → Nat → EmmetNode → PRes EmmetNode
  | 0, _, _, _ => none
  | fuel + 1, inp, pos, node =>
    if inp.length ≤ pos then some (.error ⟨"Unclosed attribute set", pos⟩)
    else
      let p1 := skipWs inp pos
      if inp[p1]? = some ']' then some (.ok (node, p1 + 1))
      else
        match consumeIdentifierOrThrow inp p1 "Expected attribute name" with
        | .error e => some (.error e)
        | .ok (name, p2) =>
          let p3 := skipWs inp p2
          if inp[p3]? = some '=' then
            let p4 := skipWs inp (p3 + 1)
            match consumeAttributeValue inp p4 with
            | .error e => some (.error e)
            | .ok (value, p5) =>
              attrStep fuel inp p5
                (node.withAttributes (setAttr node.attributes name (.str value)))
          else
            attrStep fuel inp p3 (node.withAttributes (setAttr node.attributes name .flag))
  termination_by structural fuel inp pos node => fuel

/-- Tail of a `parseAttributes` iteration: optional `,`/space separator,
then the next iteration. -/
def attrStep : Nat → List Char → Nat → EmmetNode → PRes EmmetNode
  | 0, _, _, _ => none
  | fuel + 1, inp, pos, node =>
    let p6 := skipWs inp pos
    let p7 := if inp[p6]? = some ',' || inp[p6]? = some ' ' then p6 + 1 else p6
    parseAttributes fuel inp p7 node
  termination_by structural fuel inp pos node => fuel
end

/-- `parseExpression(terminators)` from a fresh accumulator. -/
def parseExpression (fuel : Nat) (inp : List Char) (ts : List Char) (pos : Nat) :
    PRes (List EmmetNode) :=
  exprLoop fuel inp ts [] pos

/-- `EmmetParser.parse()`. -/
def parseTop (fuel : Nat) (inp : List Char) : PRes (List EmmetNode) :=
  match parseExpression fuel inp [] 0 with
  | none => none
  | some (.error e) => some (.error e)
  | some (.ok (nodes, p)) =>
    let p1 := skipWs inp p
    if inp.length ≤ p1 then some (.ok (nodes, p1))
    else some (.error ⟨"Unexpected character", p1⟩)

/-! ### Public entry point (`expandAbbreviation`) -/

inductive ExpandError where
  | emptyAbbreviation
  | noNodes
  | parseFailure (e : PErr)
deriving DecidableEq, Repr

structure ExpandResult where
  html : String
  nodes : List EmmetNode
deriving Repr

/-- `expandAbbreviation(abbreviation)`: empty check, parse, render. -/
def expandAbbreviation (fuel : Nat) (abbreviation : String) :
    Option (Except ExpandError ExpandResult) :=
  if (abbreviation.data.dropWhile isWsChar).isEmpty then
    some (.error .emptyAbbreviation)
  else
    match parseTop fuel abbreviation.data with
    | none => none
    | some (.error e) => some (.error (.parseFailure e))
    | some (.ok (nodes, _)) =>
      if nodes.length = 0 then some (.error .noNodes)
      else some (.ok ⟨renderNodes nodes, nodes⟩)


/-! ### Auxiliary definitions used by the verification below -/

/-- The node `parseElement` produces at `')'`: an empty `div`. -/
def divNode : EmmetNode := .mk "div" none [] [] none []

/-- Value of a little-endian digit list. -/
def valLE : List Nat → Nat
  | [] => 0
  | d :: ds => d + 10 * valLE ds

/-- Spec-side description of text escaping, per character: `&`, `<`, `>`
are replaced, nothing else is (to be compared with the source's
sequential `escapeHtml` replaces). -/
def specEscapeChar (c : Char) : List Char :=
  if c = '&' then "&amp;".data
  else if c = '<' then "&lt;".data
  else if c = '>' then "&gt;".data
  else [c]

/-- Spec-side description of attribute-value escaping, per character:
additionally replaces `"`. -/
def specEscapeAttrChar (c : Char) : List Char :=
  if c = '&' then "&amp;".data
  else if c = '<' then "&lt;".data
  else if c = '>' then "&gt;".data
  else if c = '\"' then "&quot;".data
  else [c]

/-- `node'` agrees with `node` on every field other than `attributes`,
and attribute-key uniqueness carries over. -/
def PreservesNonAttr (node node' : EmmetNode) : Prop :=
  node'.tag = node.tag ∧ node'.id = node.id ∧ node'.classes = node.classes ∧
  node'.text = node.text ∧ node'.children = node.children ∧
  ((node.attributes.map Prod.fst).Nodup → (node'.attributes.map Prod.fst).Nodup)

/-! ## Unfolding equations for the fueled parser (proved by `rfl`) -/

lemma exprLoop_succ (f : Nat) (inp ts : List Char) (nodes : List EmmetNode) (pos : Nat) :
    exprLoop (f + 1) inp ts nodes pos =
      match inp[skipWs inp pos]? with
      | none => some (.ok (nodes, skipWs inp pos))
      | some current =>
        if ts.contains current then some (.ok (nodes, skipWs inp pos))
        else
          match parseChildTerm f inp ts (skipWs inp pos) with
          | none => none
          | some (.error e) => some (.error e)
          | some (.ok (chunk, p2)) => exprAfter f inp ts (nodes ++ chunk) p2 := rfl

lemma exprAfter_succ (f : Nat) (inp ts : List Char) (nodes2 : List EmmetNode) (p2 : Nat) :
    exprAfter (f + 1) inp ts nodes2 p2 =
      match inp[skipWs inp p2]? with
      | none => some (.ok (nodes2, skipWs inp p2))
      | some afterChunk =>
        if afterChunk = '+' then exprLoop f inp ts nodes2 (skipWs inp p2 + 1)
        else if ts.contains afterChunk then some (.ok (nodes2, skipWs inp p2))
        else if afterChunk ≠ ')' then
          some (.error ⟨"Unexpected character", skipWs inp p2⟩)
        else exprLoop f inp ts nodes2 (skipWs inp p2) := rfl

lemma parseChildTerm_succ (f : Nat) (inp ts : List Char) (pos : Nat) :
    parseChildTerm (f + 1) inp ts pos =
      match parsePrimary f inp ts pos with
      | none => none
      | some (.error e) => some (.error e)
      | some (.ok (primaries, p1)) =>
        match applyMultiplier inp p1 primaries with
        | .error e => some (.error e)
        | .ok (parents, p2) => childLoop f inp ts parents p2 := rfl

lemma childLoop_succ (f : Nat) (inp ts : List Char) (parents : List EmmetNode) (pos : Nat) :
    childLoop (f + 1) inp ts parents pos =
      if inp[skipWs inp pos]? = some '>' then
        match exprLoop f inp (addTerm ts ')') [] (skipWs inp pos + 1) with
        | none => none
        | some (.error e) => some (.error e)
        | some (.ok (children, p2)) =>
          childLoop f inp ts
            (parents.map fun parent => parent.withChildren (cloneNodes children)) p2
      else some (.ok (parents, skipWs inp pos)) := rfl

lemma parsePrimary_succ (f : Nat) (inp ts : List Char) (pos : Nat) :
    parsePrimary (f + 1) inp ts pos =
      match inp[skipWs inp pos]? with
      | some '(' =>
        match exprLoop f inp (addTerm ts ')') [] (skipWs inp pos + 1) with
        | none => none
        | some (.error e) => some (.error e)
        | some (.ok (group, p2)) =>
          if inp[p2]? = some ')' then some (.ok (group, p2 + 1))
          else some (.error ⟨"Unclosed group", p2⟩)
      | none => some (.error ⟨"Unexpected end of input", skipWs inp pos⟩)
      | some _ =>
        match parseElement f inp (skipWs inp pos) with
        | none => none
        | some (.error e) => some (.error e)
        | some (.ok (node, p2)) => some (.ok ([node], p2)) := rfl

lemma parseElement_succ (f : Nat) (inp : List Char) (pos : Nat) :
    parseElement (f + 1) inp pos =
      elementLoop f inp (consumeIdentifier inp pos).2
        (.mk (if (consumeIdentifier inp pos).1.isEmpty then "div"
              else (consumeIdentifier inp pos).1) none [] [] none []) := rfl

lemma applyMultiplier_eq (inp : List Char) (pos : Nat) (nodes : List EmmetNode) :
    applyMultiplier inp pos nodes =
      if inp[skipWs inp pos]? = some '*' then
        match consumeNumber inp (skipWs inp pos + 1) with
        | .error e => .error e
        | .ok (count, p2) =>
          if count ≤ 0 then .error ⟨"Multiplier must be greater than zero", p2⟩
          else .ok (repeatNodes nodes count, p2)
      else .ok (nodes, skipWs inp pos) := rfl

lemma parseAttributes_succ (f : Nat) (inp : List Char) (pos : Nat) (node : EmmetNode) :
    parseAttributes (f + 1) inp pos node =
      if inp.length ≤ pos then some (.error ⟨"Unclosed attribute set", pos⟩)
      else
        if inp[skipWs inp pos]? = some ']' then some (.ok (node, skipWs inp pos + 1))
        else
          match consumeIdentifierOrThrow inp (skipWs inp pos) "Expected attribute name" with
          | .error e => some (.error e)
          | .ok (name, p2) =>
            if inp[skipWs inp p2]? = some '=' then
              match consumeAttributeValue inp (skipWs inp (skipWs inp p2 + 1)) with
              | .error e => some (.error e)
              | .ok (value, p5) =>
                attrStep f inp p5
                  (node.withAttributes (setAttr node.attributes name (.str value)))
            else
              attrStep f inp (skipWs inp p2)
                (node.withAttributes (setAttr node.attributes name .flag)) := rfl

lemma attrStep_succ (f : Nat) (inp : List Char) (pos : Nat) (node : EmmetNode) :
    attrStep (f + 1) inp pos node =
      parseAttributes f inp
        (if inp[skipWs inp pos]? = some ',' || inp[skipWs inp pos]? = some ' '
         then skipWs inp pos + 1 else skipWs inp pos) node := rfl

/-! ## Cursor lemmas -/

lemma drop_cons_of_getElem? {l : List Char} {p : Nat} {c : Char} (h : l[p]? = some c) :
    l.drop p = c :: l.drop (p + 1) := by
  obtain ⟨hlt, hget⟩ := List.getElem?_eq_some.mp h
  rw [List.drop_eq_getElem_cons hlt, hget]

lemma skipWs_eq_of_not_ws {inp : List Char} {p : Nat} {c : Char}
    (h : inp[p]? = some c) (hc : isWsChar c = false) : skipWs inp p = p := by
  unfold skipWs
  rw [drop_cons_of_getElem? h, List.takeWhile_cons_of_neg (by simp [hc])]
  rfl

lemma consumeIdentifier_eq_of_not_ident {inp : List Char} {p : Nat} {c : Char}
    (h : inp[p]? = some c) (hc : isIdentChar c = false) :
    consumeIdentifier inp p = ("", p) := by
  unfold consumeIdentifier
  rw [drop_cons_of_getElem? h, List.takeWhile_cons_of_neg (by simp [hc])]
  rfl

/-! ## The stuck state of `parseExpression` at a top-level `')'`

At a `')'` that is not in the terminator set, `parseChildTerm` returns an
empty `div` without consuming anything, and the expression loop neither
breaks nor throws: the parser makes no progress, for any amount of fuel. -/

lemma elementLoop_rparen (f : Nat) (inp : List Char) (p : Nat) (node : EmmetNode)
    (h : inp[p]? = some ')') :
    elementLoop (f + 1) inp p node = some (.ok (node, p)) := by
  unfold elementLoop
  rw [h]
  rfl

lemma parseElement_rparen (f : Nat) (inp : List Char) (p : Nat)
    (h : inp[p]? = some ')') :
    parseElement (f + 2) inp p = some (.ok (divNode, p)) := by
  show parseElement ((f + 1) + 1) inp p = some (.ok (divNode, p))
  rw [parseElement_succ, consumeIdentifier_eq_of_not_ident h rfl]
  exact elementLoop_rparen f inp p divNode h

lemma parsePrimary_one_rparen (inp ts : List Char) (p : Nat)
    (h : inp[p]? = some ')') : parsePrimary 1 inp ts p = none := by
  show parsePrimary (0 + 1) inp ts p = none
  rw [parsePrimary_succ, skipWs_eq_of_not_ws h rfl, h]
  rfl

lemma parsePrimary_two_rparen (inp ts : List Char) (p : Nat)
    (h : inp[p]? = some ')') : parsePrimary 2 inp ts p = none := by
  show parsePrimary (1 + 1) inp ts p = none
  rw [parsePrimary_succ, skipWs_eq_of_not_ws h rfl, h]
  rfl

lemma parsePrimary_rparen (f : Nat) (inp ts : List Char) (p : Nat)
    (h : inp[p]? = some ')') :
    parsePrimary (f + 3) inp ts p = some (.ok ([divNode], p)) := by
  show parsePrimary ((f + 2) + 1) inp ts p = some (.ok ([divNode], p))
  rw [parsePrimary_succ, skipWs_eq_of_not_ws h rfl, h, parseElement_rparen f inp p h]
  rfl

lemma applyMultiplier_rparen (inp : List Char) (p : Nat) (nodes : List EmmetNode)
    (h : inp[p]? = some ')') : applyMultiplier inp p nodes = .ok (nodes, p) := by
  rw [applyMultiplier_eq, skipWs_eq_of_not_ws h rfl, h]
  rfl

lemma childLoop_rparen (f : Nat) (inp ts : List Char)
    (parents : List EmmetNode) (p : Nat) (h : inp[p]? = some ')') :
    childLoop (f + 1) inp ts parents p = some (.ok (parents, p)) := by
  rw [childLoop_succ, skipWs_eq_of_not_ws h rfl, h]
  rfl

/-- At a `')'` the child term is the empty `div` and nothing is consumed
— when the parser finishes within the fuel at all. -/
lemma parseChildTerm_rparen :
    ∀ (f : Nat) (inp ts : List Char) (p : Nat), inp[p]? = some ')' →
      parseChildTerm f inp ts p = none ∨
      parseChildTerm f inp ts p = some (.ok ([divNode], p))
  | 0, _, _, _, _ => Or.inl rfl
  | 1, _, _, _, _ => Or.inl rfl
  | 2, inp, ts, p, h => Or.inl (by
      show parseChildTerm (1 + 1) inp ts p = none
      rw [parseChildTerm_succ, parsePrimary_one_rparen inp ts p h])
  | 3, inp, ts, p, h => Or.inl (by
      show parseChildTerm (2 + 1) inp ts p = none
      rw [parseChildTerm_succ, parsePrimary_two_rparen inp ts p h])
  | f + 4, inp, ts, p, h => Or.inr (by
      show parseChildTerm ((f + 3) + 1) inp ts p = some (.ok ([divNode], p))
      rw [parseChildTerm_succ, parsePrimary_rparen f inp ts p h]
      show (match applyMultiplier inp p [divNode] with
        | Except.error e => some (Except.error e)
        | Except.ok (parents, p2) => childLoop (f + 3) inp ts parents p2) =
        some (Except.ok ([divNode], p))
      rw [applyMultiplier_rparen inp p [divNode] h]
      exact childLoop_rparen (f + 2) inp ts [divNode] p h)

/-- The expression loop makes no progress at a top-level `')'`: it never
finishes, whatever the fuel. -/
lemma exprLoop_exprAfter_rparen_stuck :
    ∀ f : Nat,
      (∀ (inp : List Char) (nodes : List EmmetNode) (p : Nat), inp[p]? = some ')' →
        exprLoop f inp [] nodes p = none) ∧
      (∀ (inp : List Char) (nodes : List EmmetNode) (p : Nat), inp[p]? = some ')' →
        exprAfter f inp [] nodes p = none)
  | 0 => ⟨fun _ _ _ _ => rfl, fun _ _ _ _ => rfl⟩
  | f + 1 => by
    obtain ⟨ihL, ihA⟩ := exprLoop_exprAfter_rparen_stuck f
    constructor
    · intro inp nodes p h
      rw [exprLoop_succ, skipWs_eq_of_not_ws h rfl, h]
      rcases parseChildTerm_rparen f inp [] p h with hct | hct <;> rw [hct]
      · rfl
      · exact ihA inp (nodes ++ [divNode]) p h
    · intro inp nodes p h
      rw [exprAfter_succ, skipWs_eq_of_not_ws h rfl, h]
      exact ihL inp nodes p h

/-- C1: the claim says `expandAbbreviation` terminates on every input —
returning a result or raising an error — including inputs with an
unmatched `')'` at the top level.  The code does not: on the input `")"`
the top-level expression loop runs forever (the fueled run is `none` for
every fuel), so this theorem documents the code bug refuting no-fuel
termination at the failing input. -/
theorem expand_diverges_on_unmatched_rparen (fuel : Nat) :
    expandAbbreviation fuel ")" = none := by
  have h : exprLoop fuel ")".data [] [] 0 = none :=
    (exprLoop_exprAfter_rparen_stuck fuel).1 ")".data [] 0 rfl
  have hp : parseTop fuel ")".data = none := by
    unfold parseTop parseExpression
    rw [h]
  unfold expandAbbreviation
  rw [hp]
  rfl

/-- After the term `a`, the child term starting at the `')'` of `"a)"`
yields an empty `div` without consuming anything. -/
lemma parseChildTerm_a_rparen :
    ∀ f : Nat,
      parseChildTerm f "a)".data [] 0 = none ∨
      parseChildTerm f "a)".data [] 0 =
        some (.ok ([EmmetNode.mk "a" none [] [] none []], 1))
  | 0 => Or.inl rfl
  | 1 => Or.inl rfl
  | 2 => Or.inl rfl
  | 3 => Or.inl rfl
  | _ + 4 => Or.inr rfl

lemma exprLoop_a_rparen :
    ∀ (f : Nat) (nodes : List EmmetNode), exprLoop f "a)".data [] nodes 0 = none
  | 0, _ => rfl
  | f + 1, nodes => by
    show (match parseChildTerm f "a)".data [] 0 with
      | none => none
      | some (Except.error e) => some (Except.error e)
      | some (Except.ok (chunk, p2)) => exprAfter f "a)".data [] (nodes ++ chunk) p2) = none
    rcases parseChildTerm_a_rparen f with hct | hct <;> rw [hct]
    exact (exprLoop_exprAfter_rparen_stuck f).2 "a)".data
      (nodes ++ [EmmetNode.mk "a" none [] [] none []]) 1 rfl

/-- C2: the claim says that after a term, any trailing character other
than `'+'`, a terminator, or end of input makes `expandAbbreviation`
fail with an "unexpected character" error.  On `"a)"` the `')'` after
the term `a` is none of these at the top level, yet the code raises no
error: the expression loop runs forever (the fueled run is `none` for
every fuel).  This theorem documents the code bug at the failing
input. -/
theorem expand_diverges_after_term_rparen (fuel : Nat) :
    expandAbbreviation fuel "a)" = none := by
  have hp : parseTop fuel "a)".data = none := by
    unfold parseTop parseExpression
    rw [exprLoop_a_rparen fuel []]
  unfold expandAbbreviation
  rw [hp]
  rfl


/-! ## Numbering substitution lemmas -/

lemma applyNumberingAux_no_dollar (i : Nat) :
    ∀ l : List Char, (∀ c ∈ l, ¬(c = '$')) → applyNumberingAux i 0 l = l
  | [], _ => rfl
  | c :: rest, h => by
    unfold applyNumberingAux
    rw [if_neg (h c (List.mem_cons_self c rest)), if_pos rfl,
      applyNumberingAux_no_dollar i rest (fun x hx => h x (List.mem_cons_of_mem c hx))]

lemma applyNumberingAux_dollar_run (i : Nat) :
    ∀ (k run : Nat) (rest : List Char),
      applyNumberingAux i run (List.replicate k '$' ++ rest) =
        applyNumberingAux i (run + k) rest
  | 0, run, rest => by simp
  | k + 1, run, rest => by
    rw [List.replicate_succ, List.cons_append]
    conv_lhs => unfold applyNumberingAux
    rw [if_pos rfl, applyNumberingAux_dollar_run i k (run + 1) rest]
    have h : run + 1 + k = run + (k + 1) := by omega
    rw [h]

lemma applyNumberingAux_flush_nil (i run : Nat) (hr : run ≠ 0) :
    applyNumberingAux i run [] = padStartZeros (decimalRepr (i + 1)) run := by
  unfold applyNumberingAux
  rw [if_neg hr]

lemma applyNumberingAux_flush (i run : Nat) (c : Char) (rest : List Char)
    (hc : ¬(c = '$')) (hr : run ≠ 0) :
    applyNumberingAux i run (c :: rest) =
      padStartZeros (decimalRepr (i + 1)) run ++ c :: applyNumberingAux i 0 rest := by
  conv_lhs => unfold applyNumberingAux
  rw [if_neg hc, if_neg hr]

lemma applyNumberingAux_skip (i : Nat) (c : Char) (rest : List Char) (hc : ¬(c = '$')) :
    applyNumberingAux i 0 (c :: rest) = c :: applyNumberingAux i 0 rest := by
  conv_lhs => unfold applyNumberingAux
  rw [if_neg hc, if_pos rfl]

/-- Substituting one maximal `$`-run: the `$`-free prefix passes through,
the run of width `k` becomes the padded index, and the rest — which does
not begin with `$`, so the run is maximal — is substituted with the same
index. -/
lemma applyNumberingAux_decompose (i : Nat) :
    ∀ (pre : List Char) (k : Nat) (rest : List Char),
      (∀ c ∈ pre, ¬(c = '$')) → 0 < k → rest.head? ≠ some '$' →
      applyNumberingAux i 0 (pre ++ List.replicate k '$' ++ rest) =
        pre ++ padStartZeros (decimalRepr (i + 1)) k ++ applyNumberingAux i 0 rest
  | [], k, rest, _, hk, hrest => by
    rw [List.nil_append, List.nil_append, applyNumberingAux_dollar_run i k 0 rest,
      Nat.zero_add]
    cases rest with
    | nil =>
      rw [applyNumberingAux_flush_nil i k (by omega)]
      show _ = padStartZeros (decimalRepr (i + 1)) k ++ []
      rw [List.append_nil]
    | cons c rs =>
      have hc : ¬(c = '$') := by
        intro hceq
        exact hrest (by rw [List.head?_cons, hceq])
      rw [applyNumberingAux_flush i k c rs hc (by omega),
        applyNumberingAux_skip i c rs hc]
  | c :: pre, k, rest, hpre, hk, hrest => by
    have hc : ¬(c = '$') := hpre c (List.mem_cons_self c pre)
    simp only [List.cons_append]
    rw [applyNumberingAux_skip i _ _ hc,
      applyNumberingAux_decompose i pre k rest
        (fun x hx => hpre x (List.mem_cons_of_mem c hx)) hk hrest]

/-! ## Decimal round-trip lemmas -/

lemma valLE_natDigitsAux : ∀ fuel n : Nat, n ≤ fuel → valLE (natDigitsAux fuel n) = n
  | 0, n, h => by
    have hn : n = 0 := Nat.le_zero.mp h
    subst hn
    rfl
  | fuel + 1, n, h => by
    unfold natDigitsAux
    by_cases hn : n = 0
    · rw [if_pos hn]
      simpa [valLE] using hn.symm
    · rw [if_neg hn]
      have hd : n / 10 ≤ fuel := by
        have := Nat.div_lt_self (Nat.pos_of_ne_zero hn) (by norm_num : 1 < 10)
        omega
      show n % 10 + 10 * valLE (natDigitsAux fuel (n / 10)) = n
      rw [valLE_natDigitsAux fuel (n / 10) hd]
      omega

lemma natDigitsAux_lt_ten : ∀ fuel n : Nat, ∀ d ∈ natDigitsAux fuel n, d < 10
  | 0, _, d, hd => by simp [natDigitsAux] at hd
  | fuel + 1, n, d, hd => by
    unfold natDigitsAux at hd
    by_cases hn : n = 0
    · rw [if_pos hn] at hd
      simp at hd
    · rw [if_neg hn] at hd
      rcases List.mem_cons.mp hd with h | h
      · omega
      · exact natDigitsAux_lt_ten fuel (n / 10) d h

lemma decodeDecimal_append_singleton (l : List Char) (c : Char) :
    decodeDecimal (l ++ [c]) = 10 * decodeDecimal l + (c.toNat - 48) := by
  unfold decodeDecimal
  rw [List.foldl_append]
  rfl

lemma digitChar_toNat {d : Nat} (hd : d < 10) : (digitChar d).toNat = 48 + d := by
  interval_cases d <;> rfl

lemma digitChar_isDigit {d : Nat} (hd : d < 10) : (digitChar d).isDigit = true := by
  interval_cases d <;> rfl

lemma decodeDecimal_rev_map :
    ∀ ds : List Nat, (∀ d ∈ ds, d < 10) →
      decodeDecimal ((ds.map digitChar).reverse) = valLE ds
  | [], _ => rfl
  | d :: ds, h => by
    rw [List.map_cons, List.reverse_cons, decodeDecimal_append_singleton,
      decodeDecimal_rev_map ds (fun x hx => h x (List.mem_cons_of_mem d hx)),
      digitChar_toNat (h d (List.mem_cons_self d ds))]
    show 10 * valLE ds + (48 + d - 48) = d + 10 * valLE ds
    omega

lemma foldl_decode_zeros :
    ∀ z : Nat, List.foldl (fun a c => 10 * a + (c.toNat - 48)) 0 (List.replicate z '0') = 0
  | 0 => rfl
  | z + 1 => by
    rw [List.replicate_succ]
    exact foldl_decode_zeros z

lemma decodeDecimal_padStart (s : List Char) (w : Nat) :
    decodeDecimal (padStartZeros s w) = decodeDecimal s := by
  unfold padStartZeros decodeDecimal
  rw [List.foldl_append, foldl_decode_zeros]

lemma decodeDecimal_decimalRepr (n : Nat) : decodeDecimal (decimalRepr n) = n := by
  unfold decimalRepr
  by_cases hn : n = 0
  · rw [if_pos hn]
    simpa using hn.symm
  · rw [if_neg hn, List.map_reverse,
      decodeDecimal_rev_map (natDigitsLE n) (natDigitsAux_lt_ten n n)]
    exact valLE_natDigitsAux n n le_rfl

lemma length_padStartZeros (s : List Char) (w : Nat) :
    (padStartZeros s w).length = max w s.length := by
  unfold padStartZeros
  rw [List.length_append, List.length_replicate]
  omega

lemma padStart_decimalRepr_digits (n w : Nat) :
    ∀ c ∈ padStartZeros (decimalRepr n) w, c.isDigit = true := by
  intro c hc
  rcases List.mem_append.mp hc with h | h
  · rw [List.eq_of_mem_replicate h]
    rfl
  · unfold decimalRepr at h
    by_cases hn : n = 0
    · rw [if_pos hn] at h
      simp only [List.mem_singleton] at h
      rw [h]
      rfl
    · rw [if_neg hn] at h
      simp only [List.map_reverse, List.mem_reverse, List.mem_map] at h
      obtain ⟨d, hd, rfl⟩ := h
      exact digitChar_isDigit (natDigitsAux_lt_ten n n d hd)

/-! ## `repeatNodes` as a concatenation of numbered clones -/

lemma foldl_push_clones (i : Nat) :
    ∀ (ns acc : List EmmetNode),
      ns.foldl (fun r node => r ++ [cloneNode node i true]) acc = acc ++ cloneList ns i true
  | [], acc => by
    show acc = acc ++ []
    rw [List.append_nil]
  | n :: ns, acc => by
    show List.foldl _ (acc ++ [cloneNode n i true]) ns = _
    rw [foldl_push_clones i ns (acc ++ [cloneNode n i true])]
    show acc ++ [cloneNode n i true] ++ cloneList ns i true =
      acc ++ (cloneNode n i true :: cloneList ns i true)
    rw [List.append_assoc]
    rfl

lemma range_foldl_clones (nodes : List EmmetNode) :
    ∀ (count : Nat) (acc : List EmmetNode),
      (List.range count).foldl
        (fun result i => nodes.foldl (fun r node => r ++ [cloneNode node i true]) result)
        acc =
      acc ++ (List.range count).flatMap fun i => cloneList nodes i true
  | 0, acc => by simp
  | c + 1, acc => by
    rw [List.range_succ, List.foldl_append, range_foldl_clones nodes c acc]
    simp only [List.foldl_cons, List.foldl_nil]
    rw [foldl_push_clones c nodes]
    simp [List.flatMap_append, List.append_assoc]

/-- `repeatNodes(nodes, count)` concatenates, in index order `0..count-1`,
one deep clone of the whole sequence per index, numbered by that index. -/
lemma repeatNodes_eq_flatMap (nodes : List EmmetNode) (count : Nat) :
    repeatNodes nodes count = (List.range count).flatMap fun i => cloneList nodes i true := by
  unfold repeatNodes
  rw [range_foldl_clones nodes count []]
  rfl


/-! ## Clone lemmas -/

lemma decimalRepr_ne_nil (n : Nat) : decimalRepr n ≠ [] := by
  unfold decimalRepr
  by_cases hn : n = 0
  · rw [if_pos hn]
    simp
  · rw [if_neg hn]
    cases n with
    | zero => exact absurd rfl hn
    | succ m =>
      show ((natDigitsAux (m + 1) (m + 1)).reverse).map digitChar ≠ []
      unfold natDigitsAux
      rw [if_neg (Nat.succ_ne_zero m)]
      simp

lemma decimalRepr_length_pos (n : Nat) : 0 < (decimalRepr n).length :=
  List.length_pos.mpr (decimalRepr_ne_nil n)

/-- A width-1 placeholder never pads: the index has at least one digit. -/
lemma padStartZeros_one (n : Nat) : padStartZeros (decimalRepr n) 1 = decimalRepr n := by
  unfold padStartZeros
  have h : 1 - (decimalRepr n).length = 0 := by
    have := decimalRepr_length_pos n
    omega
  rw [h]
  rfl

mutual
/-- Cloning without numbering ignores the repetition index. -/
theorem cloneNode_index_irrel : ∀ (n : EmmetNode) (i j : Nat),
    cloneNode n i false = cloneNode n j false
  | .mk tag id classes attrs text children, i, j => by
    unfold cloneNode
    rw [cloneList_index_irrel children i j]
    rfl

theorem cloneList_index_irrel : ∀ (ns : List EmmetNode) (i j : Nat),
    cloneList ns i false = cloneList ns j false
  | [], _, _ => rfl
  | n :: ns, i, j => by
    unfold cloneList
    rw [cloneNode_index_irrel n i j, cloneList_index_irrel ns i j]
end

/-- One unfolding of `cloneNode` with numbering enabled. -/
lemma cloneNode_fields (tag : String) (id : Option String) (classes : List String)
    (attrs : List (String × AttrValue)) (text : Option String)
    (children : List EmmetNode) (i : Nat) :
    cloneNode (.mk tag id classes attrs text children) i true =
      .mk tag (cloneOptStr id i true)
        (classes.map fun cls => applyNumbering cls i)
        (attrs.map fun kv =>
          match kv with
          | (k, .flag) => (k, .flag)
          | (k, .str s) => (k, .str (applyNumbering s i)))
        (cloneOptStr text i true)
        (cloneList children i true) := rfl

lemma cloneOptStr_some (s : String) (i : Nat) (hs : s.isEmpty = false) :
    cloneOptStr (some s) i true = some (applyNumbering s i) := by
  simp [cloneOptStr, strTruthy, hs]


/-- C3: for a string and repetition index `i`, numbering substitution
replaces each maximal contiguous `$`-run of width `k` by the decimal
representation of `i+1` left-padded with `0` to width `k` (a run of
width 1 never pads), every run in the same string uses the same index
(the remainder is substituted with the same `i`), and cloning with
numbering applies the substitution to the id, every class, every
string-valued attribute and the text, but leaves boolean-flag
attributes and the tag name untouched. -/
theorem numbering_substitution_spec :
    (∀ (i : Nat) (l : List Char), (∀ c ∈ l, ¬(c = '$')) → applyNumberingL i l = l) ∧
    (∀ (i : Nat) (pre : List Char) (k : Nat) (rest : List Char),
      (∀ c ∈ pre, ¬(c = '$')) → 0 < k → rest.head? ≠ some '$' →
      applyNumberingL i (pre ++ List.replicate k '$' ++ rest) =
        pre ++ padStartZeros (decimalRepr (i + 1)) k ++ applyNumberingL i rest) ∧
    (∀ i : Nat, padStartZeros (decimalRepr (i + 1)) 1 = decimalRepr (i + 1)) ∧
    (∀ (n : EmmetNode) (i : Nat), (cloneNode n i true).tag = n.tag) ∧
    (∀ (n : EmmetNode) (i : Nat),
      (cloneNode n i true).classes = n.classes.map fun cls => applyNumbering cls i) ∧
    (∀ (n : EmmetNode) (i : Nat),
      (cloneNode n i true).attributes = n.attributes.map fun kv =>
        match kv with
        | (k, .flag) => (k, .flag)
        | (k, .str s) => (k, .str (applyNumbering s i))) ∧
    (∀ (n : EmmetNode) (i : Nat) (s : String), n.id = some s → s.isEmpty = false →
      (cloneNode n i true).id = some (applyNumbering s i)) ∧
    (∀ (n : EmmetNode) (i : Nat) (s : String), n.text = some s → s.isEmpty = false →
      (cloneNode n i true).text = some (applyNumbering s i)) ∧
    (∀ (n : EmmetNode) (i : Nat),
      (cloneNode n i true).children = cloneList n.children i true) :=
  ⟨fun i l h => applyNumberingAux_no_dollar i l h,
   fun i pre k rest h1 h2 h3 => applyNumberingAux_decompose i pre k rest h1 h2 h3,
   fun i => padStartZeros_one (i + 1),
   fun n i => by cases n; rfl,
   fun n i => by cases n; rfl,
   fun n i => by cases n; rfl,
   fun n i s hid hs => by
     cases n with
     | mk t id0 cls a x ch =>
       have h : id0 = some s := hid
       subst h
       exact cloneOptStr_some s i hs,
   fun n i s htext hs => by
     cases n with
     | mk t id0 cls a x ch =>
       have h : x = some s := htext
       subst h
       exact cloneOptStr_some s i hs,
   fun n i => by cases n; rfl⟩

/-- Witness for C3: the maximal-run substitution at `"it$$x"` with index
0 (which yields `"it01x"`), and the id substitution on a concrete node. -/
theorem numbering_substitution_spec_witness :
    ((∀ c ∈ ['i', 't'], ¬(c = '$')) ∧ 0 < 2 ∧ (['x'] : List Char).head? ≠ some '$') ∧
    applyNumberingL 0 (['i', 't'] ++ List.replicate 2 '$' ++ ['x']) =
      ['i', 't'] ++ padStartZeros (decimalRepr 1) 2 ++ applyNumberingL 0 ['x'] ∧
    (EmmetNode.mk "p" (some "a$") [] [] none []).id = some "a$" ∧
    (cloneNode (EmmetNode.mk "p" (some "a$") [] [] none []) 0 true).id =
      some (applyNumbering "a$" 0) :=
  ⟨⟨by decide, by decide, by decide⟩,
   numbering_substitution_spec.2.1 0 ['i', 't'] 2 ['x'] (by decide) (by decide) (by decide),
   rfl,
   numbering_substitution_spec.2.2.2.2.2.2.1
     (EmmetNode.mk "p" (some "a$") [] [] none []) 0 "a$" rfl rfl⟩

/-- C4: when `>` follows a (possibly multiplied) primary, the multiplier
is applied first and each resulting parent receives its own clone of the
parsed children with no numbering applied: `a*3>b` yields three `a`
parents each with child `b`, `(a+b)>c` attaches a clone of `c` to both
`a` and `b`, `a*2>b.c$` leaves the child's `$` placeholder untouched on
both parents, and numbering-free cloning does not depend on the
repetition index at all. -/
theorem multiplier_before_children_clone :
    parseTop 100 "a*3>b".data =
      some (.ok ([.mk "a" none [] [] none [.mk "b" none [] [] none []],
                  .mk "a" none [] [] none [.mk "b" none [] [] none []],
                  .mk "a" none [] [] none [.mk "b" none [] [] none []]], 5)) ∧
    parseTop 100 "(a+b)>c".data =
      some (.ok ([.mk "a" none [] [] none [.mk "c" none [] [] none []],
                  .mk "b" none [] [] none [.mk "c" none [] [] none []]], 7)) ∧
    parseTop 100 "a*2>b.c$".data =
      some (.ok ([.mk "a" none [] [] none [.mk "b" none ["c$"] [] none []],
                  .mk "a" none [] [] none [.mk "b" none ["c$"] [] none []]], 8)) ∧
    ∀ (children : List EmmetNode) (i j : Nat),
      cloneList children i false = cloneList children j false :=
  ⟨rfl, rfl, rfl, fun children i j => cloneList_index_irrel children i j⟩

/-- C5: `repeatNodes(nodes, count)` is the concatenation, in repetition
order over indices `0..count-1`, of one clone of the whole sequence per
index, each numbered with its 0-based index; hence `(a+b)*2` parses to
the four nodes a,b,a,b in that order, and `a.x$*2` numbers each
repetition (classes `x1`, `x2`). -/
theorem repeatNodes_concat_of_numbered_clones :
    (∀ (nodes : List EmmetNode) (count : Nat),
      repeatNodes nodes count = (List.range count).flatMap fun i => cloneList nodes i true) ∧
    parseTop 100 "(a+b)*2".data =
      some (.ok ([.mk "a" none [] [] none [], .mk "b" none [] [] none [],
                  .mk "a" none [] [] none [], .mk "b" none [] [] none []], 7)) ∧
    parseTop 100 "a.x$*2".data =
      some (.ok ([.mk "a" none ["x1"] [] none [], .mk "a" none ["x2"] [] none []], 6)) :=
  ⟨fun nodes count => repeatNodes_eq_flatMap nodes count, rfl, rfl⟩

/-- C7: for a multiplier count `n` and placeholder width `w > 0`, the
value substituted for a width-`w` run at repetition index `i < n` is a
left-zero-padded decimal string of length at least `w` whose decimal
value is `i + 1 ∈ [1, n]`; and `repeatNodes` numbers its clones with
exactly the indices `0..n-1`. -/
theorem numbering_value_roundtrip (n w i : Nat) (hi : i < n) (hw : 0 < w) :
    applyNumberingL i (List.replicate w '$') = padStartZeros (decimalRepr (i + 1)) w ∧
    w ≤ (padStartZeros (decimalRepr (i + 1)) w).length ∧
    (∀ c ∈ padStartZeros (decimalRepr (i + 1)) w, c.isDigit = true) ∧
    decodeDecimal (padStartZeros (decimalRepr (i + 1)) w) = i + 1 ∧
    1 ≤ i + 1 ∧ i + 1 ≤ n ∧
    ∀ nodes : List EmmetNode,
      repeatNodes nodes n = (List.range n).flatMap fun j => cloneList nodes j true := by
  refine ⟨?_, ?_, padStart_decimalRepr_digits (i + 1) w, ?_, by omega, by omega,
    fun nodes => repeatNodes_eq_flatMap nodes n⟩
  · show applyNumberingAux i 0 (List.replicate w '$') = _
    have h : List.replicate w '$' = List.replicate w '$' ++ [] := (List.append_nil _).symm
    rw [h, applyNumberingAux_dollar_run i w 0 [], Nat.zero_add,
      applyNumberingAux_flush_nil i w (by omega)]
  · rw [length_padStartZeros]
    exact le_max_left _ _
  · rw [decodeDecimal_padStart, decodeDecimal_decimalRepr]

/-- Witness for C7 at count 3, width 2, index 1: the substituted value
is `"02"`, which decodes to 2. -/
theorem numbering_value_roundtrip_witness :
    1 < 3 ∧ 0 < 2 ∧ decodeDecimal (padStartZeros (decimalRepr 2) 2) = 2 :=
  ⟨by decide, by decide, (numbering_value_roundtrip 3 2 1 (by decide) (by decide)).2.2.2.1⟩

/-- C10: `>` replaces the parents' existing children with a clone of the
newly parsed children rather than appending: `(a>b)>c` yields an `a`
whose only child is `c` — the earlier child `b` is discarded. -/
theorem child_operator_replaces_children :
    parseTop 100 "(a>b)>c".data =
      some (.ok ([.mk "a" none [] [] none [.mk "c" none [] [] none []]], 7)) := rfl


/-! ## Escaping lemmas -/

lemma replaceAll_append (t : Char) (r : List Char) :
    ∀ x y : List Char, replaceAll t r (x ++ y) = replaceAll t r x ++ replaceAll t r y
  | [], _ => rfl
  | c :: x, y => by
    show (if c = t then r else [c]) ++ replaceAll t r (x ++ y) = _
    rw [replaceAll_append t r x y]
    show _ = (if c = t then r else [c]) ++ replaceAll t r x ++ replaceAll t r y
    rw [List.append_assoc]

lemma escapeHtmlL_append (x y : List Char) :
    escapeHtmlL (x ++ y) = escapeHtmlL x ++ escapeHtmlL y := by
  unfold escapeHtmlL
  rw [replaceAll_append, replaceAll_append, replaceAll_append]

lemma escapeAttributeL_append (x y : List Char) :
    escapeAttributeL (x ++ y) = escapeAttributeL x ++ escapeAttributeL y := by
  unfold escapeAttributeL
  rw [escapeHtmlL_append, replaceAll_append]

lemma escapeHtmlL_single (c : Char) : escapeHtmlL [c] = specEscapeChar c := by
  by_cases h1 : c = '&'
  · subst h1
    rfl
  · by_cases h2 : c = '<'
    · subst h2
      rfl
    · by_cases h3 : c = '>'
      · subst h3
        rfl
      · simp [escapeHtmlL, replaceAll, specEscapeChar, h1, h2, h3]

lemma escapeAttributeL_single (c : Char) : escapeAttributeL [c] = specEscapeAttrChar c := by
  by_cases h1 : c = '&'
  · subst h1
    rfl
  · by_cases h2 : c = '<'
    · subst h2
      rfl
    · by_cases h3 : c = '>'
      · subst h3
        rfl
      · by_cases h4 : c = '\"'
        · subst h4
          rfl
        · simp [escapeAttributeL, escapeHtmlL, replaceAll, specEscapeAttrChar, h1, h2, h3, h4]

lemma escapeHtmlL_flatMap : ∀ l : List Char, escapeHtmlL l = l.flatMap specEscapeChar
  | [] => rfl
  | c :: l => by
    rw [List.flatMap_cons, ← escapeHtmlL_single c, ← escapeHtmlL_flatMap l,
      ← escapeHtmlL_append]
    rfl

lemma escapeAttributeL_flatMap :
    ∀ l : List Char, escapeAttributeL l = l.flatMap specEscapeAttrChar
  | [] => rfl
  | c :: l => by
    rw [List.flatMap_cons, ← escapeAttributeL_single c, ← escapeAttributeL_flatMap l,
      ← escapeAttributeL_append]
    rfl

lemma entriesOrder_eq_of_no_index (attrs : List (String × AttrValue))
    (h : ∀ kv ∈ attrs, isArrayIndex kv.1 = false) : entriesOrder attrs = attrs := by
  unfold entriesOrder
  have h1 : attrs.filter (fun kv => isArrayIndex kv.1) = [] := by
    rw [List.filter_eq_nil_iff]
    intro kv hkv
    simp [h kv hkv]
  have h2 : attrs.filter (fun kv => !isArrayIndex kv.1) = attrs := by
    rw [List.filter_eq_self]
    intro kv hkv
    simp [h kv hkv]
  rw [h1, h2]
  rfl

/-- C6 (amended): text escaping is exactly the per-character
substitution of `&`, `<`, `>` (attribute values additionally `"`), with
every other character passed through unchanged; the rendered attribute
text lists `id="…"` first when truthy, then `class="…"` with the
classes space-joined in order when any exist, then every other
attribute — in `Object.entries` enumeration order: array-index keys
first in ascending numeric order, then the remaining keys in insertion
order — as `name="value"` or bare `name`; when no attribute name is an
array index this is plain insertion order. -/
theorem attribute_list_and_escaping_spec :
    (∀ l : List Char, escapeHtmlL l = l.flatMap specEscapeChar) ∧
    (∀ l : List Char, escapeAttributeL l = l.flatMap specEscapeAttrChar) ∧
    (∀ c : Char, specEscapeChar c = [c] ∨ c = '&' ∨ c = '<' ∨ c = '>') ∧
    (∀ c : Char, specEscapeAttrChar c = [c] ∨ c = '&' ∨ c = '<' ∨ c = '>' ∨ c = '\"') ∧
    (∀ node : EmmetNode, buildAttributeList node =
      joinSpace (
        (match node.id with
         | some s => if s.isEmpty then [] else ["id=\"".data ++ escapeAttributeL s.data ++ ['\"']]
         | none => []) ++
        (if node.classes.length > 0 then
          ["class=\"".data ++
            escapeAttributeL (joinSpace (node.classes.map String.data)) ++ ['\"']]
         else []) ++
        (entriesOrder node.attributes).map fun kv =>
          match kv with
          | (k, .flag) => k.data
          | (k, .str v) => k.data ++ "=\"".data ++ escapeAttributeL v.data ++ ['\"'])) ∧
    (∀ attrs : List (String × AttrValue),
      (∀ kv ∈ attrs, isArrayIndex kv.1 = false) → entriesOrder attrs = attrs) := by
  refine ⟨escapeHtmlL_flatMap, escapeAttributeL_flatMap, ?_, ?_, ?_,
    entriesOrder_eq_of_no_index⟩
  · intro c
    by_cases h1 : c = '&'
    · exact Or.inr (Or.inl h1)
    · by_cases h2 : c = '<'
      · exact Or.inr (Or.inr (Or.inl h2))
      · by_cases h3 : c = '>'
        · exact Or.inr (Or.inr (Or.inr h3))
        · exact Or.inl (by simp [specEscapeChar, h1, h2, h3])
  · intro c
    by_cases h1 : c = '&'
    · exact Or.inr (Or.inl h1)
    · by_cases h2 : c = '<'
      · exact Or.inr (Or.inr (Or.inl h2))
      · by_cases h3 : c = '>'
        · exact Or.inr (Or.inr (Or.inr (Or.inl h3)))
        · by_cases h4 : c = '\"'
          · exact Or.inr (Or.inr (Or.inr (Or.inr h4)))
          · exact Or.inl (by simp [specEscapeAttrChar, h1, h2, h3, h4])
  · intro node
    cases node with
    | mk t id0 cls a x ch =>
      cases id0 with
      | none => rfl
      | some s =>
        by_cases hs : s.isEmpty
        · simp [buildAttributeList, strTruthy, hs, EmmetNode.id]
        · simp [buildAttributeList, strTruthy, hs, EmmetNode.id]

/-- Witness for C6: an attribute list with no array-index keys is
enumerated in plain insertion order. -/
theorem attribute_list_and_escaping_spec_witness :
    (∀ kv ∈ [("a", AttrValue.str "y"), ("b", AttrValue.flag)], isArrayIndex kv.1 = false) ∧
    entriesOrder [("a", AttrValue.str "y"), ("b", AttrValue.flag)] =
      [("a", AttrValue.str "y"), ("b", AttrValue.flag)] :=
  ⟨by decide, attribute_list_and_escaping_spec.2.2.2.2.2
    [("a", AttrValue.str "y"), ("b", AttrValue.flag)] (by decide)⟩

/-- Counterexample for C6 as originally stated: `div[a=y 1=x]` stores
its attributes in insertion order `a`, then `1`, but the rendered
attribute text enumerates the array-index key `1` first — so "every
other attribute in insertion order" is false of the program. -/
theorem attribute_order_counterexample :
    parseTop 100 "div[a=y 1=x]".data =
      some (.ok ([.mk "div" none [] [("a", .str "y"), ("1", .str "x")] none []], 12)) ∧
    buildAttributeList (.mk "div" none [] [("a", .str "y"), ("1", .str "x")] none []) =
      "1=\"x\" a=\"y\"".data ∧
    "1=\"x\" a=\"y\"".data ≠ "a=\"y\" 1=\"x\"".data :=
  ⟨rfl, rfl, by decide⟩

/-- C8: an input that is empty or all whitespace is rejected with the
empty-abbreviation error before any parsing — even with zero fuel — and
never produces a result. -/
theorem empty_abbreviation_rejected (fuel : Nat) (s : String)
    (h : ∀ c ∈ s.data, isWsChar c = true) :
    expandAbbreviation fuel s = some (.error .emptyAbbreviation) := by
  have hd : s.data.dropWhile isWsChar = [] := List.dropWhile_eq_nil_iff.mpr h
  unfold expandAbbreviation
  rw [hd]
  rfl

/-- Witness for C8 at the all-whitespace input `"   "` with zero fuel. -/
theorem empty_abbreviation_rejected_witness :
    (∀ c ∈ ("   " : String).data, isWsChar c = true) ∧
    expandAbbreviation 0 "   " = some (.error .emptyAbbreviation) :=
  ⟨by decide, empty_abbreviation_rejected 0 "   " (by decide)⟩

/-! ## Attribute-list lemmas -/

lemma lookup_setAttr :
    ∀ (attrs : List (String × AttrValue)) (k : String) (v : AttrValue),
      (setAttr attrs k v).lookup k = some v
  | [], k, v => by simp [setAttr, List.lookup]
  | (k', v') :: rest, k, v => by
    unfold setAttr
    by_cases h : k' = k
    · rw [if_pos h]
      simp [List.lookup]
    · rw [if_neg h]
      have hne : (k == k') = false := beq_eq_false_iff_ne.mpr fun he => h he.symm
      simp only [List.lookup, hne]
      exact lookup_setAttr rest k v

lemma keys_setAttr :
    ∀ (attrs : List (String × AttrValue)) (k : String) (v : AttrValue),
      (setAttr attrs k v).map Prod.fst =
        if k ∈ attrs.map Prod.fst then attrs.map Prod.fst else attrs.map Prod.fst ++ [k]
  | [], k, v => by simp [setAttr]
  | (k', v') :: rest, k, v => by
    unfold setAttr
    by_cases h : k' = k
    · rw [if_pos h]
      subst h
      simp
    · rw [if_neg h]
      simp only [List.map_cons]
      rw [keys_setAttr rest k v]
      by_cases hm : k ∈ rest.map Prod.fst
      · rw [if_pos hm, if_pos (by simp [hm])]
      · rw [if_neg hm, if_neg (by
          simp only [List.mem_cons]
          push_neg
          exact ⟨fun he => h he.symm, hm⟩)]
        rfl

lemma nodup_keys_setAttr (attrs : List (String × AttrValue)) (k : String) (v : AttrValue)
    (h : (attrs.map Prod.fst).Nodup) : ((setAttr attrs k v).map Prod.fst).Nodup := by
  rw [keys_setAttr]
  by_cases hm : k ∈ attrs.map Prod.fst
  · rw [if_pos hm]
    exact h
  · rw [if_neg hm]
    rw [List.nodup_append]
    refine ⟨h, List.nodup_singleton k, ?_⟩
    intro a ha hak
    rw [List.mem_singleton.mp hak] at ha
    exact hm ha

lemma withAttributes_fields (node : EmmetNode) (a : List (String × AttrValue)) :
    (node.withAttributes a).tag = node.tag ∧ (node.withAttributes a).id = node.id ∧
    (node.withAttributes a).classes = node.classes ∧
    (node.withAttributes a).text = node.text ∧
    (node.withAttributes a).children = node.children ∧
    (node.withAttributes a).attributes = a := by
  cases node
  exact ⟨rfl, rfl, rfl, rfl, rfl, rfl⟩

lemma preserves_trans_with (node : EmmetNode) (a : List (String × AttrValue))
    (node' : EmmetNode)
    (hkeys : (node.attributes.map Prod.fst).Nodup → (a.map Prod.fst).Nodup)
    (h : PreservesNonAttr (node.withAttributes a) node') :
    PreservesNonAttr node node' := by
  obtain ⟨f1, f2, f3, f4, f5, f6⟩ := withAttributes_fields node a
  obtain ⟨g1, g2, g3, g4, g5, g6⟩ := h
  exact ⟨g1.trans f1, g2.trans f2, g3.trans f3, g4.trans f4, g5.trans f5,
    fun hd => g6 (by rw [f6]; exact hkeys hd)⟩

/-- `parseAttributes` (and its loop tail) only ever update the node's
attribute list, and attribute-key uniqueness is preserved. -/
lemma parseAttributes_attrStep_preserve :
    ∀ fuel : Nat,
      (∀ (inp : List Char) (pos : Nat) (node node' : EmmetNode) (p' : Nat),
        parseAttributes fuel inp pos node = some (.ok (node', p')) →
        PreservesNonAttr node node') ∧
      (∀ (inp : List Char) (pos : Nat) (node node' : EmmetNode) (p' : Nat),
        attrStep fuel inp pos node = some (.ok (node', p')) →
        PreservesNonAttr node node')
  | 0 => by
    constructor <;> intro inp pos node node' p' h <;>
      exact Option.noConfusion h
  | fuel + 1 => by
    obtain ⟨ihP, ihS⟩ := parseAttributes_attrStep_preserve fuel
    constructor
    · intro inp pos node node' p' h
      rw [parseAttributes_succ] at h
      split at h
      · simp at h
      · split at h
        · simp only [Option.some.injEq, Except.ok.injEq, Prod.mk.injEq] at h
          obtain ⟨hn, -⟩ := h
          subst hn
          exact ⟨rfl, rfl, rfl, rfl, rfl, fun hd => hd⟩
        · split at h
          · simp at h
          · split at h
            · split at h
              · simp at h
              · exact preserves_trans_with node _ node'
                  (fun hd => nodup_keys_setAttr node.attributes _ _ hd)
                  (ihS _ _ _ _ _ h)
            · exact preserves_trans_with node _ node'
                (fun hd => nodup_keys_setAttr node.attributes _ _ hd)
                (ihS _ _ _ _ _ h)
    · intro inp pos node node' p' h
      rw [attrStep_succ] at h
      exact ihP _ _ _ _ _ h

/-- C9: within one attribute list a repeated name is not an error: the
later occurrence overwrites the earlier value in place (last write
wins), the key set stays unique, and attribute parsing changes no field
of the node other than `attributes` — concretely, `div[a=1 a=2]` parses
with the single attribute `a="2"`. -/
theorem duplicate_attribute_last_write_wins :
    (∀ (attrs : List (String × AttrValue)) (k : String) (v : AttrValue),
      (setAttr attrs k v).lookup k = some v) ∧
    (∀ (attrs : List (String × AttrValue)) (k : String) (v : AttrValue),
      (setAttr attrs k v).map Prod.fst =
        if k ∈ attrs.map Prod.fst then attrs.map Prod.fst
        else attrs.map Prod.fst ++ [k]) ∧
    (∀ (attrs : List (String × AttrValue)) (k : String) (v : AttrValue),
      (attrs.map Prod.fst).Nodup → ((setAttr attrs k v).map Prod.fst).Nodup) ∧
    (∀ (fuel : Nat) (inp : List Char) (pos : Nat) (node node' : EmmetNode) (p' : Nat),
      parseAttributes fuel inp pos node = some (.ok (node', p')) →
      PreservesNonAttr node node') ∧
    parseTop 100 "div[a=1 a=2]".data =
      some (.ok ([.mk "div" none [] [("a", .str "2")] none []], 12)) :=
  ⟨lookup_setAttr, keys_setAttr, nodup_keys_setAttr,
   fun fuel inp pos node node' p' h =>
     (parseAttributes_attrStep_preserve fuel).1 inp pos node node' p' h,
   rfl⟩

/-- Witness for C9: the concrete attribute-list run `a=1 a=2]` on an
empty `div` node yields the single key `a` with value `"2"` and
preserves all other fields; and `setAttr` keeps a singleton key set
unique when overwriting. -/
theorem duplicate_attribute_last_write_wins_witness :
    parseAttributes 50 "a=1 a=2]".data 0 (.mk "div" none [] [] none []) =
      some (.ok (.mk "div" none [] [("a", .str "2")] none [], 8)) ∧
    PreservesNonAttr (.mk "div" none [] [] none [])
      (.mk "div" none [] [("a", .str "2")] none []) ∧
    ([("x", AttrValue.flag)].map Prod.fst).Nodup ∧
    ((setAttr [("x", AttrValue.flag)] "x" (.str "1")).map Prod.fst).Nodup :=
  ⟨rfl,
   duplicate_attribute_last_write_wins.2.2.2.1 50 "a=1 a=2]".data 0
     (.mk "div" none [] [] none []) (.mk "div" none [] [("a", .str "2")] none []) 8 rfl,
   by decide,
   duplicate_attribute_last_write_wins.2.2.1 [("x", AttrValue.flag)] "x" (.str "1")
     (by decide)⟩

end Emmet
